import Mathlib

/-
Verification of the octogle-meet signaling core against its design document.

The relay (signaling server) keeps an in-memory table `rooms` mapping a room
id to the set of socket ids of its members; handlers `create-room`,
`join-room`, `signal`, `leave-room` and `disconnect` mutate it and emit
notifications.  We embed the table as an association list, member sets as
duplicate-free lists (JS `Set` semantics: `add` is a no-op on a present
element, `delete` removes the element), and every notification emitted by a
handler as an explicit event `(recipient, message)`.  Socket.io room
membership stays in sync with the table (every table mutation is paired with
`socket.join` / `socket.leave`), so `socket.to(roomId).emit(...)` delivers to
exactly the table's members of `roomId` other than the sender.

The client side (hooks for socket connection, peer connection and the room
orchestration) is embedded as pure functions over explicit state: the join
retry loop as a recursive function of the server's responses, the peer
reconnection scheduler as a state transformer, the signal negotiation
handlers as `Except`-valued functions of the underlying transport outcomes,
and the orchestrator's teardown paths as traces of primitive actions.
-/

namespace OctogleMeet

abbrev RoomId := String
abbrev MemberId := String

/-- The relay's room table `rooms`: room id paired with its member set,
embedded as an association list. -/
abbrev Registry := List (RoomId × List MemberId)

/-- The `{ ok, reason? }` object passed to a handler's acknowledgment
callback. -/
structure Result where
  ok : Bool
  reason : Option String
deriving DecidableEq

/-- A message delivered by the relay to a client. -/
inductive Msg where
  | peerJoined (socketId : MemberId)
  | peerLeft (socketId : MemberId)
  | signalMsg (src : MemberId) (ty : String) (payload : String)
deriving DecidableEq

/-- A delivered notification: recipient paired with the message. -/
abbrev Event := MemberId × Msg

/-- Table lookup `rooms[roomId]`. -/
def lookupRoom (rooms : Registry) (roomId : RoomId) : Option (List MemberId) :=
  match rooms with
  | [] => none
  | (rid, mems) :: rest => if rid = roomId then some mems else lookupRoom rest roomId

/-- Table update `rooms[roomId] = mems` for a key already present. -/
def setRoom (rooms : Registry) (roomId : RoomId) (mems : List MemberId) : Registry :=
  rooms.map (fun p => if p.1 = roomId then (roomId, mems) else p)

/-- Table deletion `delete rooms[roomId]`. -/
def eraseRoom (rooms : Registry) (roomId : RoomId) : Registry :=
  rooms.filter (fun p => p.1 != roomId)

/-- JS `Set.add`: a no-op when the element is already present. -/
def addMember (mems : List MemberId) (m : MemberId) : List MemberId :=
  if m ∈ mems then mems else mems ++ [m]

/-- JS `Set.delete`: removes the element when present. -/
def removeMember (mems : List MemberId) (m : MemberId) : List MemberId :=
  mems.filter (fun x => x != m)

/-- The `create-room` handler: fails with ROOM_ALREADY_EXISTS when the id is
taken, otherwise inserts a fresh room holding only the caller. -/
def createRoom (rooms : Registry) (roomId : RoomId) (sender : MemberId) :
    Registry × Result × List Event :=
  match lookupRoom rooms roomId with
  | some _ => (rooms, ⟨false, some "ROOM_ALREADY_EXISTS"⟩, [])
  | none => (rooms ++ [(roomId, [sender])], ⟨true, none⟩, [])

/-- The `join-room` handler: ROOM_NOT_FOUND when absent, ROOM_FULL when the
member set already has two entries, otherwise adds the caller and emits
peer-joined to the other members (the caller has just joined the socket.io
room, and `socket.to` excludes the sender). -/
def joinRoom (rooms : Registry) (roomId : RoomId) (sender : MemberId) :
    Registry × Result × List Event :=
  match lookupRoom rooms roomId with
  | none => (rooms, ⟨false, some "ROOM_NOT_FOUND"⟩, [])
  | some mems =>
    if mems.length ≥ 2 then (rooms, ⟨false, some "ROOM_FULL"⟩, [])
    else
      let mems2 := addMember mems sender
      (setRoom rooms roomId mems2, ⟨true, none⟩,
        (mems2.filter (fun x => x != sender)).map (fun x => (x, Msg.peerJoined sender)))

/-- The server-side `leaveRoom` helper: a no-op when the room is absent;
otherwise removes the caller from the set, emits peer-left to the members
still in the socket.io room (the caller has just left it), and deletes the
room when the set became empty. -/
def leaveRoom (rooms : Registry) (roomId : RoomId) (sender : MemberId) :
    Registry × List Event :=
  match lookupRoom rooms roomId with
  | none => (rooms, [])
  | some mems =>
    let mems2 := removeMember mems sender
    ((if mems2.length = 0 then eraseRoom rooms roomId else setRoom rooms roomId mems2),
      mems2.map (fun x => (x, Msg.peerLeft sender)))

/-- The `signal` handler: `socket.to(roomId).emit` re-broadcasts the message,
tagged with the sender's id, to every member of the socket.io room except the
sender; an unknown room id means an empty recipient set. -/
def signalForward (rooms : Registry) (roomId : RoomId) (sender : MemberId)
    (ty payload : String) : List Event :=
  match lookupRoom rooms roomId with
  | none => []
  | some mems =>
    (mems.filter (fun x => x != sender)).map (fun x => (x, Msg.signalMsg sender ty payload))

/-- One iteration of the `disconnect` handler's loop body: leave the room if
the disconnecting socket is one of its members. -/
def disconnectStep (m : MemberId) (rooms : Registry) (rid : RoomId) : Registry :=
  match lookupRoom rooms rid with
  | some mems => if m ∈ mems then (leaveRoom rooms rid m).1 else rooms
  | none => rooms

/-- The `disconnect` handler: iterate over a snapshot of the table's keys and
leave every room containing the disconnecting socket. -/
def disconnectAll (rooms : Registry) (m : MemberId) : Registry :=
  (rooms.map (fun p => p.1)).foldl (disconnectStep m) rooms

/-- The registry-mutating operations a connected client can trigger. -/
inductive Op where
  | create (roomId : RoomId) (sender : MemberId)
  | join (roomId : RoomId) (sender : MemberId)
  | leave (roomId : RoomId) (sender : MemberId)
  | disconnect (sender : MemberId)

/-- The registry component of one handler invocation. -/
def step (rooms : Registry) : Op → Registry
  | Op.create rid m => (createRoom rooms rid m).1
  | Op.join rid m => (joinRoom rooms rid m).1
  | Op.leave rid m => (leaveRoom rooms rid m).1
  | Op.disconnect m => disconnectAll rooms m

/-- The registry reached from the empty table by a sequence of operations. -/
def runOps (ops : List Op) : Registry :=
  ops.foldl step []

/-- The registry invariant: every room in the table has a nonempty member set
of size at most two. -/
def Inv (rooms : Registry) : Prop :=
  ∀ p ∈ rooms, p.2 ≠ [] ∧ p.2.length ≤ 2

/-- Outcome reported by the client's room join loop through its one-shot
success/error callbacks. -/
inductive JoinOutcome where
  | success
  | terminalError (reason : Option String)
deriving DecidableEq

/-- The non-creator branch of the client's `rejoinRoom` loop, as a function
of the server's response to each numbered attempt.  It returns the reported
outcome together with the list of `setTimeout` delays of the scheduled
retries: a retry is scheduled after `2000 * attempt` milliseconds only while
the attempt bound is not reached and the failure reason is ROOM_NOT_FOUND;
any other failure reports a terminal error at once. -/
def runJoin (resp : Nat → Result) (maxAttempts attempt : Nat) : JoinOutcome × List Nat :=
  if (resp attempt).ok then (JoinOutcome.success, [])
  else if h : attempt < maxAttempts ∧ (resp attempt).reason = some "ROOM_NOT_FOUND" then
    let rest := runJoin resp maxAttempts (attempt + 1)
    (rest.1, 2000 * attempt :: rest.2)
  else (JoinOutcome.terminalError (resp attempt).reason, [])
termination_by maxAttempts - attempt
decreasing_by exact Nat.sub_succ_lt_self maxAttempts attempt h.1

/-- A server that answers ROOM_NOT_FOUND to the first two join attempts and
accepts the third. -/
def respLateRoom : Nat → Result := fun attempt =>
  if attempt ≤ 2 then ⟨false, some "ROOM_NOT_FOUND"⟩ else ⟨true, none⟩

/-- A server that answers ROOM_FULL to every join attempt. -/
def respAlwaysFull : Nat → Result := fun _ => ⟨false, some "ROOM_FULL"⟩

/-- socketConfig.js: maximum number of reconnection attempts. -/
def MAX_RECONNECT_ATTEMPTS : Nat := 5

/-- socketConfig.js: initial reconnection delay in milliseconds. -/
def INITIAL_RECONNECT_DELAY : Nat := 1000

/-- State of the peer session's retry budget: the attempt counter
(`peerReconnectAttemptsRef`) and the delay of the pending scheduled
reconnect, if one exists (`reconnectTimeoutRef`). -/
structure PeerRetryState where
  attempts : Nat
  pendingDelay : Option Nat
deriving DecidableEq

/-- The peer hook's `attemptReconnection`: refuses once the budget is
exhausted; otherwise increments the counter, computes the capped exponential
delay, replaces any pending timer with a single scheduled reconnect after
that delay, and reports success. -/
def attemptReconnection (s : PeerRetryState) : Bool × PeerRetryState :=
  if s.attempts ≥ MAX_RECONNECT_ATTEMPTS then (false, s)
  else
    let attempts2 := s.attempts + 1
    let delay := min (INITIAL_RECONNECT_DELAY * 2 ^ (attempts2 - 1)) 16000
    (true, ⟨attempts2, some delay⟩)

/-- The peer hook's `handleOffer`, as a function of the outcomes of the three
underlying transport calls it awaits in order (`setRemoteDescription`,
`createAnswer`, `setLocalDescription`): the catch block logs and rethrows, so
the first failure propagates to the caller. -/
def handleOffer (setRemote createAnswer setLocal : Except String Unit) : Except String Unit :=
  match setRemote with
  | Except.error e => Except.error e
  | Except.ok _ =>
    match createAnswer with
    | Except.error e => Except.error e
    | Except.ok _ => setLocal

/-- The peer hook's `handleAnswer`: returns silently when no peer connection
exists; otherwise the catch block logs and rethrows the outcome of
`setRemoteDescription`. -/
def handleAnswer (pcPresent : Bool) (setRemote : Except String Unit) : Except String Unit :=
  if pcPresent then setRemote else Except.ok ()

/-- The peer hook's `handleIceCandidate`: returns silently when no peer
connection exists, and its catch block only logs a warning, so a failing
`addIceCandidate` is swallowed. -/
def handleIceCandidate (pcPresent : Bool) (addCandidate : Except String Unit) :
    Except String Unit :=
  if pcPresent then
    match addCandidate with
    | Except.ok _ => Except.ok ()
    | Except.error _ => Except.ok ()
  else Except.ok ()

/-- Client-side view of the signaling socket: whether `socketRef.current` is
set, whether it reports connected, and the messages emitted so far
(event name, room id, type, payload). -/
structure ClientSocket where
  present : Bool
  connected : Bool
  emitted : List (String × String × String × String)
deriving DecidableEq

/-- The client's `sendSignal`: emits `signal {roomId, type, payload}` only
when the socket exists and is connected, and otherwise does nothing at all. -/
def sendSignal (sock : ClientSocket) (roomId ty payload : String) : ClientSocket :=
  if sock.present && sock.connected then
    ⟨sock.present, sock.connected, sock.emitted ++ [("signal", roomId, ty, payload)]⟩
  else sock

/-- Primitive side effects performed by the orchestrator hook and the hooks
it composes, in program order. -/
inductive TAct where
  | stopMediaTracks
  | clearLocalVideo
  | setMuted (b : Bool)
  | setVideoOff (b : Bool)
  | clearPeerRetryTimer
  | resetPeerAttempts
  | closePeerConnection
  | clearRemoteVideo
  | setPeerState (s : String)
  | clearConnectionTimeout
  | stopReconnectMonitor
  | resetSocketAttempts
  | removeSocketListeners
  | disconnectSocket
  | setIsConnected (b : Bool)
  | setStatus (s : String)
  | setReconnecting (b : Bool)
  | setRetryCount (n : Nat)
  | setError (e : Option String)
  | scheduleTask (delayMs : Nat)
deriving DecidableEq

/-- `stopStream` from the media hook: stop all tracks, drop the stream and
the local video element, reset the toggles and the error. -/
def stopStreamTrace : List TAct :=
  [TAct.stopMediaTracks, TAct.clearLocalVideo, TAct.setMuted false,
   TAct.setVideoOff false, TAct.setError none]

/-- `close` from the peer hook: cancel any pending reconnect timer, reset the
peer retry counter, close and drop the peer connection, clear the remote
video, and mark the session closed. -/
def peerCloseTrace : List TAct :=
  [TAct.clearPeerRetryTimer, TAct.resetPeerAttempts, TAct.closePeerConnection,
   TAct.clearRemoteVideo, TAct.setPeerState "closed"]

/-- `disconnect` from the socket hook: cancel the connection timeout, stop
the reconnection monitor, reset the socket retry counter, remove the
listeners, disconnect and drop the socket, and reset the observable state. -/
def socketDisconnectTrace : List TAct :=
  [TAct.clearConnectionTimeout, TAct.stopReconnectMonitor, TAct.resetSocketAttempts,
   TAct.removeSocketListeners, TAct.disconnectSocket, TAct.setIsConnected false,
   TAct.setReconnecting false, TAct.setRetryCount 0, TAct.setError none]

/-- The orchestrator's `endCall`: stop the media stream, close the peer
connection, disconnect the socket, then settle the observable state on
status disconnected. -/
def endCallTrace : List TAct :=
  stopStreamTrace ++ peerCloseTrace ++ socketDisconnectTrace ++
    [TAct.setStatus "disconnected", TAct.setReconnecting false,
     TAct.setRetryCount 0, TAct.setError none]

/-- The orchestrator's peer-left handler: mark the call disconnected and
clear the remote video. -/
def handlePeerLeftTrace : List TAct :=
  [TAct.setStatus "disconnected", TAct.clearRemoteVideo]

/-- The error path of the orchestrator's `start` (and of the join callback):
record the message and mark the call disconnected; nothing is scheduled. -/
def startFailureTrace (msg : String) : List TAct :=
  [TAct.setError (some msg), TAct.setStatus "disconnected"]

/-- The orchestrator's `handleRetry`: reset the observable state, run
`endCall`, and schedule a fresh `start` after a 500 ms settle delay. -/
def handleRetryTrace : List TAct :=
  [TAct.setError none, TAct.setStatus "waiting", TAct.setReconnecting false,
   TAct.setRetryCount 0] ++ endCallTrace ++ [TAct.scheduleTask 500]

/-- Whether an action schedules a deferred task. -/
def isScheduleAct : TAct → Bool
  | TAct.scheduleTask _ => true
  | _ => false

/-- Whether an action sets the orchestrator status. -/
def isStatusAct : TAct → Bool
  | TAct.setStatus _ => true
  | _ => false

theorem lookupRoom_mem {rooms : Registry} {rid : RoomId} {mems : List MemberId} :
    lookupRoom rooms rid = some mems → (rid, mems) ∈ rooms := by
  induction rooms with
  | nil => intro h; simp [lookupRoom] at h
  | cons p rest ih =>
    intro h
    obtain ⟨k, v⟩ := p
    rw [lookupRoom] at h
    by_cases hk : k = rid
    · rw [if_pos hk] at h
      injection h with hv
      subst hk; subst hv
      exact List.mem_cons_self _ _
    · rw [if_neg hk] at h
      exact List.mem_cons_of_mem _ (ih h)

theorem lookupRoom_setRoom {rooms : Registry} {rid : RoomId} {w : List MemberId}
    (v : List MemberId) (h : lookupRoom rooms rid = some w) :
    lookupRoom (setRoom rooms rid v) rid = some v := by
  induction rooms with
  | nil => simp [lookupRoom] at h
  | cons p rest ih =>
    obtain ⟨k, m⟩ := p
    rw [lookupRoom] at h
    rw [setRoom, List.map_cons]
    by_cases hk : k = rid
    · rw [if_pos hk]
      rw [lookupRoom, if_pos rfl]
    · rw [if_neg hk, lookupRoom, if_neg hk]
      rw [if_neg hk] at h
      simpa [setRoom] using ih h

theorem lookupRoom_eraseRoom (rooms : Registry) (rid : RoomId) :
    lookupRoom (eraseRoom rooms rid) rid = none := by
  induction rooms with
  | nil => rfl
  | cons p rest ih =>
    obtain ⟨k, m⟩ := p
    by_cases hk : k = rid
    · simpa [eraseRoom, List.filter_cons, hk] using ih
    · simpa [eraseRoom, List.filter_cons, lookupRoom, hk] using ih

theorem lookupRoom_append_none {rooms : Registry} {rid : RoomId}
    (v : List MemberId) (h : lookupRoom rooms rid = none) :
    lookupRoom (rooms ++ [(rid, v)]) rid = some v := by
  induction rooms with
  | nil => simp [lookupRoom]
  | cons p rest ih =>
    obtain ⟨k, m⟩ := p
    rw [lookupRoom] at h
    by_cases hk : k = rid
    · rw [if_pos hk] at h; cases h
    · rw [if_neg hk] at h
      simpa [lookupRoom, hk] using ih h

theorem setRoom_setRoom (rooms : Registry) (rid : RoomId) (v w : List MemberId) :
    setRoom (setRoom rooms rid v) rid w = setRoom rooms rid w := by
  simp only [setRoom, List.map_map]
  apply List.map_congr_left
  intro p _
  by_cases hp : p.1 = rid <;> simp [Function.comp, hp]

theorem inv_of_lookup {rooms : Registry} {rid : RoomId} {mems : List MemberId}
    (hInv : Inv rooms) (h : lookupRoom rooms rid = some mems) :
    mems ≠ [] ∧ mems.length ≤ 2 :=
  hInv (rid, mems) (lookupRoom_mem h)

theorem inv_setRoom {rooms : Registry} {rid : RoomId} {v : List MemberId}
    (hInv : Inv rooms) (hne : v ≠ []) (hle : v.length ≤ 2) :
    Inv (setRoom rooms rid v) := by
  intro p hp
  obtain ⟨q, hq, rfl⟩ := List.mem_map.mp hp
  by_cases hq1 : q.1 = rid
  · simpa [hq1] using And.intro hne hle
  · simpa [hq1] using hInv q hq

theorem inv_eraseRoom {rooms : Registry} {rid : RoomId} (hInv : Inv rooms) :
    Inv (eraseRoom rooms rid) :=
  fun p hp => hInv p (List.mem_of_mem_filter hp)

theorem inv_createRoom {rooms : Registry} (hInv : Inv rooms) (rid : RoomId) (m : MemberId) :
    Inv (createRoom rooms rid m).1 := by
  cases h : lookupRoom rooms rid with
  | some mems => simpa [createRoom, h] using hInv
  | none =>
    intro p hp
    simp only [createRoom, h] at hp
    rcases List.mem_append.mp hp with hp2 | hp2
    · exact hInv p hp2
    · simp only [List.mem_singleton] at hp2
      subst hp2
      exact ⟨by simp, by simp⟩

theorem inv_joinRoom {rooms : Registry} (hInv : Inv rooms) (rid : RoomId) (m : MemberId) :
    Inv (joinRoom rooms rid m).1 := by
  cases h : lookupRoom rooms rid with
  | none => simpa [joinRoom, h] using hInv
  | some mems =>
    simp only [joinRoom, h]
    by_cases hfull : mems.length ≥ 2
    · rw [if_pos hfull]
      exact hInv
    · have hm := inv_of_lookup hInv h
      rw [if_neg hfull]
      apply inv_setRoom hInv
      · rw [addMember]
        by_cases hmem : m ∈ mems
        · rw [if_pos hmem]; exact hm.1
        · rw [if_neg hmem]; simp
      · rw [addMember]
        by_cases hmem : m ∈ mems
        · rw [if_pos hmem]; exact hm.2
        · rw [if_neg hmem]; simp; omega

theorem inv_leaveRoom {rooms : Registry} (hInv : Inv rooms) (rid : RoomId) (m : MemberId) :
    Inv (leaveRoom rooms rid m).1 := by
  cases h : lookupRoom rooms rid with
  | none => simpa [leaveRoom, h] using hInv
  | some mems =>
    simp only [leaveRoom, h]
    by_cases h0 : (removeMember mems m).length = 0
    · rw [if_pos h0]
      exact inv_eraseRoom hInv
    · rw [if_neg h0]
      apply inv_setRoom hInv
      · exact fun he => h0 (by simp [he])
      · have h1 : (removeMember mems m).length ≤ mems.length :=
          List.length_filter_le _ mems
        have h2 := (inv_of_lookup hInv h).2
        omega

theorem inv_disconnectStep {rooms : Registry} (hInv : Inv rooms) (m : MemberId)
    (rid : RoomId) : Inv (disconnectStep m rooms rid) := by
  cases h : lookupRoom rooms rid with
  | none => simpa [disconnectStep, h] using hInv
  | some mems =>
    simp only [disconnectStep, h]
    by_cases hm : m ∈ mems
    · rw [if_pos hm]
      exact inv_leaveRoom hInv rid m
    · rw [if_neg hm]
      exact hInv

theorem inv_foldl_disconnectStep (m : MemberId) (keys : List RoomId) :
    ∀ acc : Registry, Inv acc → Inv (keys.foldl (disconnectStep m) acc) := by
  induction keys with
  | nil => exact fun acc h => h
  | cons k ks ih => exact fun acc h => ih _ (inv_disconnectStep h m k)

theorem inv_step {rooms : Registry} (hInv : Inv rooms) (op : Op) : Inv (step rooms op) := by
  cases op with
  | create rid m => exact inv_createRoom hInv rid m
  | join rid m => exact inv_joinRoom hInv rid m
  | leave rid m => exact inv_leaveRoom hInv rid m
  | disconnect m => exact inv_foldl_disconnectStep m _ _ hInv

theorem inv_runOps (ops : List Op) : Inv (runOps ops) := by
  have hgen : ∀ acc : Registry, Inv acc → Inv (ops.foldl step acc) := by
    induction ops with
    | nil => exact fun acc h => h
    | cons o os ih => exact fun acc h => ih _ (inv_step h o)
  exact hgen [] (fun p hp => absurd hp (List.not_mem_nil p))

/-- C1: in every registry state reachable by any sequence of create, join,
leave and disconnect operations from the empty table, every room present in
the table has at least one and at most two members; since no reachable state
contains a zero-member room, any operation that empties a room also deletes
it within that same operation. -/
theorem C1_room_capacity_and_eviction (ops : List Op) :
    ∀ p ∈ runOps ops, 1 ≤ p.2.length ∧ p.2.length ≤ 2 := by
  intro p hp
  have h := inv_runOps ops p hp
  have hne : p.2.length ≠ 0 := fun h0 => h.1 (List.length_eq_zero.mp h0)
  omega

/-- Witness for C1 at a concrete reachable state: after creating room r and a
second member joining, the room holds exactly the two members. -/
theorem C1_room_capacity_and_eviction_witness :
    1 ≤ (("r", ["A", "B"]) : RoomId × List MemberId).2.length ∧
      (("r", ["A", "B"]) : RoomId × List MemberId).2.length ≤ 2 :=
  C1_room_capacity_and_eviction [Op.create "r" "A", Op.join "r" "B"]
    ("r", ["A", "B"]) (by decide)

theorem filter_addMember (mems : List MemberId) (m : MemberId) :
    (addMember mems m).filter (fun x => x != m) = mems.filter (fun x => x != m) := by
  rw [addMember]
  by_cases hm : m ∈ mems
  · rw [if_pos hm]
  · rw [if_neg hm, List.filter_append]
    simp

theorem removeMember_removeMember (mems : List MemberId) (m : MemberId) :
    removeMember (removeMember mems m) m = removeMember mems m := by
  simp [removeMember, List.filter_filter]

/-- C2: join on an absent room fails with ROOM_NOT_FOUND leaving the table
unchanged; join on a two-member room fails with ROOM_FULL leaving the table
unchanged; otherwise the caller is added to the room, the acknowledgment is
ok, and each other current member of the room receives peer-joined carrying
the new member's id. -/
theorem C2_join_semantics (rooms : Registry) (roomId : RoomId) (m : MemberId)
    (hInv : Inv rooms) :
    (lookupRoom rooms roomId = none →
      joinRoom rooms roomId m = (rooms, ⟨false, some "ROOM_NOT_FOUND"⟩, []))
    ∧ (∀ mems, lookupRoom rooms roomId = some mems → mems.length = 2 →
      joinRoom rooms roomId m = (rooms, ⟨false, some "ROOM_FULL"⟩, []))
    ∧ (∀ mems, lookupRoom rooms roomId = some mems → mems.length ≠ 2 →
      (joinRoom rooms roomId m).2.1 = ⟨true, none⟩
      ∧ lookupRoom (joinRoom rooms roomId m).1 roomId = some (addMember mems m)
      ∧ m ∈ addMember mems m
      ∧ (joinRoom rooms roomId m).2.2 =
          (mems.filter (fun x => x != m)).map (fun x => (x, Msg.peerJoined m))) := by
  refine ⟨?_, ?_, ?_⟩
  · intro h
    simp [joinRoom, h]
  · intro mems h h2
    simp [joinRoom, h, if_pos (by omega : mems.length ≥ 2)]
  · intro mems h h2
    have hle := (inv_of_lookup hInv h).2
    have hlt : ¬ mems.length ≥ 2 := by omega
    refine ⟨?_, ?_, ?_, ?_⟩
    · simp [joinRoom, h, if_neg hlt]
    · simp only [joinRoom, h]
      rw [if_neg hlt]
      exact lookupRoom_setRoom _ h
    · rw [addMember]
      by_cases hm : m ∈ mems
      · rw [if_pos hm]; exact hm
      · rw [if_neg hm]; simp
    · simp [joinRoom, h, if_neg hlt, filter_addMember]

/-- Witness for C2: member B joining room r that holds only A succeeds, B
ends up in the member set, and A is notified with peer-joined B. -/
theorem C2_join_semantics_witness :
    (joinRoom [("r", ["A"])] "r" "B").2.1 = ⟨true, none⟩
    ∧ lookupRoom (joinRoom [("r", ["A"])] "r" "B").1 "r" = some (addMember ["A"] "B")
    ∧ "B" ∈ addMember ["A"] "B"
    ∧ (joinRoom [("r", ["A"])] "r" "B").2.2 =
        ((["A"] : List MemberId).filter (fun x => x != "B")).map
          (fun x => (x, Msg.peerJoined "B")) :=
  (C2_join_semantics [("r", ["A"])] "r" "B" (by unfold Inv; decide)).2.2
    ["A"] (by decide) (by decide)

/-- C3: create on a taken id fails with ROOM_ALREADY_EXISTS leaving the table
unchanged; create on a fresh id inserts a room holding exactly the caller and
succeeds; and a second create with the same id, by any caller, always fails
with ROOM_ALREADY_EXISTS. -/
theorem C3_create_semantics (rooms : Registry) (roomId : RoomId) (m m2 : MemberId) :
    (∀ mems, lookupRoom rooms roomId = some mems →
      createRoom rooms roomId m = (rooms, ⟨false, some "ROOM_ALREADY_EXISTS"⟩, []))
    ∧ (lookupRoom rooms roomId = none →
      createRoom rooms roomId m = (rooms ++ [(roomId, [m])], ⟨true, none⟩, []))
    ∧ (createRoom (createRoom rooms roomId m).1 roomId m2).2.1 =
        ⟨false, some "ROOM_ALREADY_EXISTS"⟩ := by
  refine ⟨?_, ?_, ?_⟩
  · intro mems h
    simp [createRoom, h]
  · intro h
    simp [createRoom, h]
  · cases h : lookupRoom rooms roomId with
    | some mems => simp [createRoom, h]
    | none =>
      have h2 := lookupRoom_append_none ([m]) h
      simp [createRoom, h, h2]

/-- Witness for C3: creating room r on an empty table inserts {A}, and a
duplicate create of r by B fails with ROOM_ALREADY_EXISTS. -/
theorem C3_create_semantics_witness :
    createRoom ([] : Registry) "r" "A" = ([("r", ["A"])], ⟨true, none⟩, [])
    ∧ (createRoom (createRoom ([] : Registry) "r" "A").1 "r" "B").2.1 =
        ⟨false, some "ROOM_ALREADY_EXISTS"⟩ := by
  have h := C3_create_semantics ([] : Registry) "r" "A" "B"
  exact ⟨h.2.1 (by decide), h.2.2⟩

/-- C4: a signal for a known room is re-broadcast, tagged with the sender's
id as origin, to every current member of the room except the sender; a
signal for an unknown room is silently dropped; and no membership check is
made on the sender, so even a non-member's signal is delivered to all
members. -/
theorem C4_signal_relay (rooms : Registry) (roomId : RoomId) (sender : MemberId)
    (ty payload : String) :
    (lookupRoom rooms roomId = none → signalForward rooms roomId sender ty payload = [])
    ∧ (∀ mems, lookupRoom rooms roomId = some mems →
      signalForward rooms roomId sender ty payload =
        (mems.filter (fun x => x != sender)).map
          (fun x => (x, Msg.signalMsg sender ty payload)))
    ∧ (∀ mems, lookupRoom rooms roomId = some mems → sender ∉ mems →
      signalForward rooms roomId sender ty payload =
        mems.map (fun x => (x, Msg.signalMsg sender ty payload))) := by
  refine ⟨?_, ?_, ?_⟩
  · intro h
    simp [signalForward, h]
  · intro mems h
    simp [signalForward, h]
  · intro mems h hs
    have hfix : mems.filter (fun x => x != sender) = mems := by
      rw [List.filter_eq_self]
      intro a ha
      simp only [bne_iff_ne, ne_eq, decide_eq_true_eq]
      exact fun he => hs (he ▸ ha)
    simp [signalForward, h, hfix]

/-- Witness for C4: a signal from A for room r containing A and B is
delivered exactly to B as signal from A. -/
theorem C4_signal_relay_witness :
    signalForward [("r", ["A", "B"])] "r" "A" "offer" "sdp" =
      ((["A", "B"] : List MemberId).filter (fun x => x != "A")).map
        (fun x => (x, Msg.signalMsg "A" "offer" "sdp")) :=
  (C4_signal_relay [("r", ["A", "B"])] "r" "A" "offer" "sdp").2.1
    ["A", "B"] (by decide)

/-- C6 counterexample: with room r holding A and B, a second leave by A keeps
the registry unchanged but delivers a second peer-left notification to the
remaining member B, so two calls are not observationally the same as one. -/
theorem C6_leave_idempotent_counterexample :
    (leaveRoom (leaveRoom [("r", ["A", "B"])] "r" "A").1 "r" "A").1 =
        (leaveRoom [("r", ["A", "B"])] "r" "A").1
    ∧ (leaveRoom [("r", ["A", "B"])] "r" "A").2 = [("B", Msg.peerLeft "A")]
    ∧ (leaveRoom (leaveRoom [("r", ["A", "B"])] "r" "A").1 "r" "A").2 =
        [("B", Msg.peerLeft "A")] := by
  decide

/-- C6 amended: leave is idempotent on the registry contents (a second call
changes nothing), and a leave of an absent room is a complete no-op; but
whenever the room exists, peer-left is emitted to all remaining members even
when the departing member was not in the set, so notifications are delivered
again on a repeated leave. -/
theorem C6_leave_registry_idempotent (rooms : Registry) (roomId : RoomId) (m : MemberId) :
    (leaveRoom (leaveRoom rooms roomId m).1 roomId m).1 = (leaveRoom rooms roomId m).1
    ∧ (lookupRoom rooms roomId = none → leaveRoom rooms roomId m = (rooms, []))
    ∧ (∀ mems, lookupRoom rooms roomId = some mems →
        (leaveRoom rooms roomId m).2 =
          (removeMember mems m).map (fun x => (x, Msg.peerLeft m))) := by
  refine ⟨?_, ?_, ?_⟩
  · cases h : lookupRoom rooms roomId with
    | none =>
      have h1 : leaveRoom rooms roomId m = (rooms, []) := by simp [leaveRoom, h]
      simp [h1]
    | some mems =>
      by_cases h0 : removeMember mems m = []
      · have h1 : (leaveRoom rooms roomId m).1 = eraseRoom rooms roomId := by
          simp [leaveRoom, h, h0]
        rw [h1]
        simp [leaveRoom, lookupRoom_eraseRoom]
      · have h1 : (leaveRoom rooms roomId m).1 =
            setRoom rooms roomId (removeMember mems m) := by
          simp [leaveRoom, h, h0]
        have hl2 := lookupRoom_setRoom (removeMember mems m) h
        rw [h1]
        simp [leaveRoom, hl2, removeMember_removeMember, h0, setRoom_setRoom]
  · intro h
    simp [leaveRoom, h]
  · intro mems h
    simp [leaveRoom, h]

/-- Witness for C6 amended: leaving room r twice as A keeps the registry at
its state after the first leave, and the first leave notifies B. -/
theorem C6_leave_registry_idempotent_witness :
    (leaveRoom (leaveRoom [("q", ["A", "B"])] "q" "A").1 "q" "A").1 =
        (leaveRoom [("q", ["A", "B"])] "q" "A").1
    ∧ (leaveRoom [("q", ["A", "B"])] "q" "A").2 =
        (removeMember ["A", "B"] "A").map (fun x => (x, Msg.peerLeft "A")) := by
  have h := C6_leave_registry_idempotent [("q", ["A", "B"])] "q" "A"
  exact ⟨h.1, h.2.2 ["A", "B"] (by decide)⟩

/-- C5 counterexample: in the endCall trace the media teardown precedes the
peer-session teardown, contradicting the claimed order peer, channel, media;
and the failure path of start also sets status disconnected while scheduling
no retry, so endCall is not the only such path. -/
theorem C5_endcall_order_counterexample :
    endCallTrace.indexOf TAct.stopMediaTracks <
        endCallTrace.indexOf TAct.closePeerConnection
    ∧ TAct.setStatus "disconnected" ∈ startFailureTrace "failed"
    ∧ (startFailureTrace "failed").all (fun a => !(isScheduleAct a)) = true := by
  decide

/-- C5 amended: endCall unconditionally tears down the media, then the peer
session, then the channel, in that order; it cancels the pending peer retry
timer, schedules no deferred task, and the only status it sets is
disconnected. -/
theorem C5_endcall_teardown :
    endCallTrace.indexOf TAct.stopMediaTracks <
        endCallTrace.indexOf TAct.closePeerConnection
    ∧ endCallTrace.indexOf TAct.closePeerConnection <
        endCallTrace.indexOf TAct.disconnectSocket
    ∧ TAct.stopMediaTracks ∈ endCallTrace
    ∧ TAct.closePeerConnection ∈ endCallTrace
    ∧ TAct.disconnectSocket ∈ endCallTrace
    ∧ TAct.clearPeerRetryTimer ∈ endCallTrace
    ∧ endCallTrace.filter (fun a => isScheduleAct a) = []
    ∧ endCallTrace.filter (fun a => isStatusAct a) = [TAct.setStatus "disconnected"] := by
  decide

theorem runJoin_length_le (resp : Nat → Result) (maxAttempts attempt : Nat) :
    (runJoin resp maxAttempts attempt).2.length ≤ maxAttempts - attempt := by
  have key : ∀ n attempt2, maxAttempts - attempt2 ≤ n →
      (runJoin resp maxAttempts attempt2).2.length ≤ maxAttempts - attempt2 := by
    intro n
    induction n with
    | zero =>
      intro attempt2 hle
      rw [runJoin]
      split
      · simp
      · split
        · next h => exact absurd h.1 (by omega)
        · simp
    | succ n ih =>
      intro attempt2 hle
      rw [runJoin]
      split
      · simp
      · split
        · next h =>
          have hrec := ih (attempt2 + 1) (by omega)
          have h1 := h.1
          simp only [List.length_cons]
          omega
        · simp
  exact key (maxAttempts - attempt) attempt le_rfl

theorem runJoin_delays (resp : Nat → Result) (maxAttempts attempt : Nat) :
    (runJoin resp maxAttempts attempt).2 =
      (List.range' attempt (runJoin resp maxAttempts attempt).2.length).map
        (fun a => 2000 * a) := by
  have key : ∀ n attempt2, maxAttempts - attempt2 ≤ n →
      (runJoin resp maxAttempts attempt2).2 =
        (List.range' attempt2 (runJoin resp maxAttempts attempt2).2.length).map
          (fun a => 2000 * a) := by
    intro n
    induction n with
    | zero =>
      intro attempt2 hle
      rw [runJoin]
      split
      · simp
      · split
        · next h => exact absurd h.1 (by omega)
        · simp
    | succ n ih =>
      intro attempt2 hle
      rw [runJoin]
      split
      · simp
      · split
        · next h =>
          have hrec := ih (attempt2 + 1) (by omega)
          have hcons : ∀ k, List.range' attempt2 (k + 1) = attempt2 :: List.range' (attempt2 + 1) k :=
            fun k => rfl
          simp only [List.length_cons, hcons, List.map_cons, List.cons.injEq]
          exact ⟨trivial, hrec⟩
        · simp
  exact key (maxAttempts - attempt) attempt le_rfl

theorem runJoin_terminal (resp : Nat → Result) (maxAttempts attempt : Nat)
    (hok : (resp attempt).ok = false)
    (hreason : (resp attempt).reason ≠ some "ROOM_NOT_FOUND") :
    runJoin resp maxAttempts attempt =
      (JoinOutcome.terminalError (resp attempt).reason, []) := by
  rw [runJoin, if_neg (by simp [hok]), dif_neg (fun hc => hreason hc.2)]

/-- C7: for a non-creator starting at attempt 1 with the bound of 5, the
total number of join attempts (scheduled retry delays plus the first
attempt) never exceeds 5; the scheduled retry delays grow linearly as
attempt times the 2000 ms base delay; and a failure whose reason is
ROOM_FULL at any attempt ends the protocol at once with a terminal error and
no scheduled retry. -/
theorem C7_join_retry_policy (resp : Nat → Result) :
    (runJoin resp 5 1).2.length + 1 ≤ 5
    ∧ (runJoin resp 5 1).2 =
        (List.range' 1 (runJoin resp 5 1).2.length).map (fun a => 2000 * a)
    ∧ (∀ attempt, (resp attempt).ok = false →
        (resp attempt).reason = some "ROOM_FULL" →
        runJoin resp 5 attempt = (JoinOutcome.terminalError (some "ROOM_FULL"), [])) := by
  refine ⟨?_, runJoin_delays resp 5 1, ?_⟩
  · have h := runJoin_length_le resp 5 1
    omega
  · intro attempt hok hr
    have h := runJoin_terminal resp 5 attempt hok (by rw [hr]; decide)
    rw [hr] at h
    exact h

/-- Witness for C7: against a server that accepts the third attempt the loop
stays within the bound and its delays are 2000 and 4000 ms; against a server
answering ROOM_FULL the first attempt is terminal with no retry. -/
theorem C7_join_retry_policy_witness :
    (runJoin respLateRoom 5 1).2 =
        (List.range' 1 (runJoin respLateRoom 5 1).2.length).map (fun a => 2000 * a)
    ∧ runJoin respAlwaysFull 5 1 =
        (JoinOutcome.terminalError (some "ROOM_FULL"), []) := by
  refine ⟨(C7_join_retry_policy respLateRoom).2.1, ?_⟩
  exact (C7_join_retry_policy respAlwaysFull).2.2 1 rfl rfl

/-- C8: attemptReconnection refuses and changes nothing once the attempt
counter has reached the maximum; below the maximum it increments the
counter, schedules a single deferred reconnect whose delay is the base delay
doubled per attempt and capped at 16000 ms, and reports true. -/
theorem C8_attempt_reconnection (s : PeerRetryState) :
    (MAX_RECONNECT_ATTEMPTS ≤ s.attempts → attemptReconnection s = (false, s))
    ∧ (s.attempts < MAX_RECONNECT_ATTEMPTS →
        attemptReconnection s =
          (true, ⟨s.attempts + 1,
            some (min (INITIAL_RECONNECT_DELAY * 2 ^ (s.attempts + 1 - 1)) 16000)⟩)) := by
  constructor
  · intro h
    rw [attemptReconnection, if_pos h]
  · intro h
    rw [attemptReconnection, if_neg (Nat.not_le.mpr h)]

/-- Witness for C8: at five attempts the budget is exhausted and nothing is
scheduled; at two attempts a single reconnect is scheduled after 4000 ms and
the counter moves to three. -/
theorem C8_attempt_reconnection_witness :
    attemptReconnection ⟨5, none⟩ = (false, ⟨5, none⟩)
    ∧ attemptReconnection ⟨2, some 1000⟩ =
        (true, ⟨3, some (min (INITIAL_RECONNECT_DELAY * 2 ^ (2 + 1 - 1)) 16000)⟩) := by
  constructor
  · exact (C8_attempt_reconnection ⟨5, none⟩).1 (by decide)
  · exact (C8_attempt_reconnection ⟨2, some 1000⟩).2 (by decide)

/-- C9: handleIceCandidate reports success whatever the underlying
addIceCandidate outcome is (failures are only logged), while handleOffer and
handleAnswer propagate the failure of their underlying transport calls. -/
theorem C9_ice_candidate_errors_swallowed (pcPresent : Bool)
    (addCandidate : Except String Unit) (e : String) (ca sl : Except String Unit) :
    handleIceCandidate pcPresent addCandidate = Except.ok ()
    ∧ handleOffer (Except.error e) ca sl = Except.error e
    ∧ handleAnswer true (Except.error e) = Except.error e := by
  refine ⟨?_, rfl, rfl⟩
  cases pcPresent with
  | false => rfl
  | true =>
    cases addCandidate with
    | ok u => rfl
    | error er => rfl

/-- C10: sendSignal is a complete no-op when the socket is absent or not
connected: the state, and with it the list of emitted messages, is returned
unchanged and nothing is queued. -/
theorem C10_send_signal_dropped_when_disconnected (sock : ClientSocket)
    (roomId ty payload : String)
    (h : sock.present = false ∨ sock.connected = false) :
    sendSignal sock roomId ty payload = sock := by
  have hc : (sock.present && sock.connected) = false := by
    rcases h with h | h <;> simp [h]
  rw [sendSignal, if_neg (by simp [hc])]

/-- Witness for C10: with no socket at hand a signal is dropped and the
state is unchanged. -/
theorem C10_send_signal_dropped_witness :
    sendSignal ⟨false, false, []⟩ "r" "offer" "sdp" = ⟨false, false, []⟩ :=
  C10_send_signal_dropped_when_disconnected ⟨false, false, []⟩ "r" "offer" "sdp"
    (Or.inl rfl)

end OctogleMeet
